import Mathlib

/-!
# llang: the tokenizer of `lcc.c`

A shallow embedding of `next_token_like`, `next_token` and the token loop of
`main` (src/lcc.c), with the properties of the scanner proved over it.

Memory model.  `next_token` receives a `const char*` and walks it with `*s`
and `++s`.  Memory is a finite list of bytes (`Nat`s, compared with the
character constants of the source) and a pointer is an offset into it;
`peek m i` is `*(m + i)`.  Cells past the end of the list read as 0.  A source
text of length `len` is a NUL-terminated string at offset 0: bytes `0 .. len-1`
are non-zero and byte `len` is 0 (`cstring`).  What follows the terminator in
memory is not constrained, since the scanner is handed only a pointer.
-/

namespace Llang

/-! ## Data model -/

/-- The `enum error_type` of lcc.c (lines 23-27). -/
inductive error_type where
  | ERROR_FATAL
  | ERROR_GENERAL
  | ERROR_SYNTAX
  deriving DecidableEq, Repr

/-- The `struct token` of lcc.c (lines 91-94): two pointers into the source
buffer, kept as offsets.  The C field `end` is spelled `end_`, `end` being a
keyword. -/
structure token where
  start : Nat
  end_ : Nat
  deriving DecidableEq, Repr

/-- The `enum token_like` of lcc.c (lines 96-113). -/
inductive token_like where
  | TL_SYMBOL
  | TL_EQ
  | TL_EQ_EQ
  | TL_COLON
  | TL_CCOLON
  | TL_PLUS
  | TL_QUOT
  | TL_PAREN_OPEN
  | TL_PAREN_END
  | TL_BRACE_OPEN
  | TL_BRACE_END
  | TL_COMMA
  | TL_SEMIC
  | TL_DOT
  deriving DecidableEq, Repr

/-- What a call that may end in `errlogf(severity, message); exit(1);` yields:
the returned value, or the severity and message of the error that ended the
process. -/
abbrev result (α : Type) := Except (error_type × String) α

/-- The byte `*(m + i)`; cells past the modelled memory read as 0. -/
def peek (m : List Nat) (i : Nat) : Nat := m.getD i 0

/-- Memory `m` holds at offset 0 a NUL-terminated string of length `len`. -/
def cstring (m : List Nat) (len : Nat) : Prop :=
  peek m len = 0 ∧ ∀ i, i < len → peek m i ≠ 0

instance (m : List Nat) (len : Nat) : Decidable (cstring m len) := by
  unfold cstring; infer_instance

/-! ## The classifier -/

/-- The function `next_token_like` (lcc.c lines 115-169): the `switch (*s)`,
its cases in source order; `'='` is 61, `'+'` 43, `'"'` 34, `'{'` 123,
`'}'` 125, `'('` 40, `')'` 41, `','` 44, `';'` 59, `'.'` 46, `':'` 58. -/
def next_token_like (m : List Nat) (s : Nat) : token_like :=
  if peek m s = 61 then token_like.TL_EQ
  else if peek m s = 43 then token_like.TL_PLUS
  else if peek m s = 34 then token_like.TL_QUOT
  else if peek m s = 123 then token_like.TL_BRACE_OPEN
  else if peek m s = 125 then token_like.TL_BRACE_END
  else if peek m s = 40 then token_like.TL_PAREN_OPEN
  else if peek m s = 41 then token_like.TL_PAREN_END
  else if peek m s = 44 then token_like.TL_COMMA
  else if peek m s = 59 then token_like.TL_SEMIC
  else if peek m s = 46 then token_like.TL_DOT
  else if peek m s = 58 then token_like.TL_COLON
  else token_like.TL_SYMBOL

/-! ## The scanner

Each `while` loop of `next_token` is a function recursive on a counter, and
`next_token` hands it the counter `m.length - s`.  That counter never cuts a
loop short: an iteration that goes on has read a non-zero byte at `s` or at
`s + 1`, which lies inside the modelled memory, and at counter 0 the pointer is
past the modelled memory, where the loop of the source leaves with the value
given here.  `skip_loop_exit`, `symbol_loop_exit` and `quote_loop_counter`
prove it. -/

/-- The loop `while (*start == ' ' || *start == '\n') ++start;` (lcc.c lines
172-173); the result is the final `start`. -/
def skip_loop : Nat → List Nat → Nat → Nat
  | 0, _, start => start
  | n + 1, m, start =>
    if peek m start = 32 ∨ peek m start = 10 then skip_loop n m (start + 1)
    else start

/-- The loop `while (*s++ != '"') { if (!*s) { errlogf(ERROR_SYNTAX,
"unterminated quote"); exit(1); } }` (lcc.c lines 182-187); the result is the
final `s`.  The test reads `*s` and increments `s` whether or not it holds. -/
def quote_loop : Nat → List Nat → Nat → result Nat
  | 0, _, _ => Except.error (error_type.ERROR_SYNTAX, "unterminated quote")
  | n + 1, m, s =>
    if peek m s ≠ 34 then
      if peek m (s + 1) = 0 then
        Except.error (error_type.ERROR_SYNTAX, "unterminated quote")
      else quote_loop n m (s + 1)
    else Except.ok (s + 1)

/-- The loop `while (*s && *s != ' ' && *s != '\n') { tokenlike =
next_token_like(s); if (tokenlike != TL_SYMBOL) break; ++s; }` (lcc.c lines
208-212); the result is the final `s`. -/
def symbol_loop : Nat → List Nat → Nat → Nat
  | 0, _, s => s
  | n + 1, m, s =>
    if peek m s ≠ 0 ∧ peek m s ≠ 32 ∧ peek m s ≠ 10 then
      if next_token_like m s ≠ token_like.TL_SYMBOL then s
      else symbol_loop n m (s + 1)
    else s

/-- The function `next_token` (lcc.c lines 171-217), called with the pointer
`m + p`. -/
def next_token (m : List Nat) (p : Nat) : result token :=
  let start := skip_loop (m.length - p) m p
  let tokenlike := next_token_like m start
  let s := start + 1
  if tokenlike = token_like.TL_QUOT then
    match quote_loop (m.length - s) m s with
    | Except.error e => Except.error e
    | Except.ok s' => Except.ok ⟨start, s'⟩
  else if tokenlike = token_like.TL_EQ then
    if peek m s = 61 then Except.ok ⟨start, s + 1⟩
    else Except.ok ⟨start, s⟩
  else if tokenlike = token_like.TL_COLON then
    if peek m s = 58 then Except.ok ⟨start, s + 1⟩
    else Except.error (error_type.ERROR_SYNTAX, "expected ::, found :")
  else if tokenlike = token_like.TL_SYMBOL then
    Except.ok ⟨start, symbol_loop (m.length - s) m s⟩
  else Except.ok ⟨start, s⟩

/-! ## The token loop of `main` -/

/-- The bytes `fwrite(token.start, 1, token.end - token.start, stdout)` writes
(lcc.c line 263). -/
def span_text (m : List Nat) (t : token) : List Nat :=
  (m.drop t.start).take (t.end_ - t.start)

/-- The loop `while (token.end - token.start > 0 && *srcp) { token =
next_token(srcp); srcp = token.end; fwrite ... }` (lcc.c lines 258-265).  The
state is `srcp`, the last `token` and the tokens printed so far; the result is
the printed tokens and the final `srcp`. -/
def main_loop : Nat → List Nat → Nat → token → List token → result (List token × Nat)
  | 0, _, srcp, _, out => Except.ok (out, srcp)
  | n + 1, m, srcp, tok, out =>
    if (tok.end_ : Int) - (tok.start : Int) > 0 ∧ peek m srcp ≠ 0 then
      match next_token m srcp with
      | Except.error e => Except.error e
      | Except.ok t => main_loop n m t.end_ t (out ++ [t])
    else Except.ok (out, srcp)

/-- The tokenizing part of `main` (lcc.c lines 256-265): `srcp = filebuf`, a
first `next_token(srcp)` whose result only enters the loop test, then the
loop.  Every iteration reads a non-zero byte at `srcp` and moves `srcp`
forward, so the counter `m.length + 1` is never used up
(`main_loop_counter`). -/
def main_tokens (m : List Nat) : result (List token × Nat) :=
  match next_token m 0 with
  | Except.error e => Except.error e
  | Except.ok t => main_loop (m.length + 1) m 0 t []

/-- The text the claim of the round trip rebuilds: before each token the bytes
between the cursor and the token's start, then the token's bytes. -/
def rebuild (m : List Nat) : Nat → List token → List Nat
  | _, [] => []
  | cur, t :: ts => (m.drop cur).take (t.start - cur) ++ span_text m t ++ rebuild m t.end_ ts

/-- Offset `q` is the first one at or after `p` whose byte is neither a space
nor a newline: the first non-whitespace character seen from the cursor `p`. -/
def first_nonws (m : List Nat) (p q : Nat) : Prop :=
  p ≤ q ∧ (∀ i, p ≤ i → i < q → (peek m i = 32 ∨ peek m i = 10)) ∧
    peek m q ≠ 32 ∧ peek m q ≠ 10

instance (m : List Nat) (p q : Nat) : Decidable (first_nonws m p q) := by
  unfold first_nonws; infer_instance

/-- The bytes of a text, as the buffer `main` fills: the characters' codes
followed by the terminating 0 (`filebuf[len] = 0`, lcc.c lines 240-241). -/
def buffer (text : String) : List Nat :=
  text.toList.map Char.toNat ++ [0]

/-- The calls the claim of strict progress iterates: `k` calls of `next_token`,
the first at the cursor `p` and each later one at the end of the token before;
the result is the cursor after the last call, or the error of the call that
failed. -/
def next_token_iter : Nat → List Nat → Nat → result Nat
  | 0, _, p => Except.ok p
  | k + 1, m, p =>
    match next_token m p with
    | Except.error e => Except.error e
    | Except.ok t => next_token_iter k m t.end_

/-- The spans `ts`, printed from the cursor `cur` on, tile a text of length
`len`: each begins at the first non-whitespace offset at or after the end of
the span before it (the cursor, for the first), is not empty, ends inside the
text or at its terminator, and holds no NUL. -/
def tiles (m : List Nat) (len : Nat) : Nat → List token → Prop
  | _, [] => True
  | cur, t :: ts =>
    first_nonws m cur t.start ∧ t.start < t.end_ ∧ t.end_ ≤ len ∧
      (∀ i, t.start ≤ i → i < t.end_ → peek m i ≠ 0) ∧ tiles m len t.end_ ts

/-! ## The loops -/

theorem peek_past (m : List Nat) (i : Nat) (h : m.length ≤ i) : peek m i = 0 := by
  unfold peek
  exact List.getD_eq_default m 0 h

theorem peek_lt (m : List Nat) (i : Nat) (h : peek m i ≠ 0) : i < m.length := by
  by_contra hc
  exact h (peek_past m i (Nat.le_of_not_lt hc))

/-- The whitespace loop leaves at a byte that is neither space nor newline,
having passed only spaces and newlines: the counter did not cut it short. -/
theorem skip_loop_exit (n : Nat) (m : List Nat) (p : Nat) (h : m.length ≤ p + n) :
    first_nonws m p (skip_loop n m p) := by
  induction n generalizing p with
  | zero =>
    have h0 : peek m p = 0 := peek_past m p (by omega)
    refine ⟨Nat.le_refl _, ?_, ?_, ?_⟩
    · intro i h1 h2
      simp only [skip_loop] at h2
      omega
    · simp [skip_loop, h0]
    · simp [skip_loop, h0]
  | succ n ih =>
    by_cases hw : peek m p = 32 ∨ peek m p = 10
    · have hr : skip_loop (n + 1) m p = skip_loop n m (p + 1) := by
        simp only [skip_loop, if_pos hw]
      rw [hr]
      obtain ⟨h1, h2, h3, h4⟩ := ih (p + 1) (by omega)
      refine ⟨by omega, ?_, h3, h4⟩
      intro i hi1 hi2
      by_cases hip : i = p
      · subst hip; exact hw
      · exact h2 i (by omega) hi2
    · have hr : skip_loop (n + 1) m p = p := by
        simp only [skip_loop, if_neg hw]
      rw [hr]
      refine ⟨Nat.le_refl _, ?_, ?_, ?_⟩
      · intro i h1 h2
        omega
      · intro h32; exact hw (Or.inl h32)
      · intro h10; exact hw (Or.inr h10)

/-- The first non-whitespace offset seen from `p` is unique. -/
theorem first_nonws_unique (m : List Nat) (p q r : Nat)
    (hq : first_nonws m p q) (hr : first_nonws m p r) : q = r := by
  obtain ⟨q1, q2, q3, q4⟩ := hq
  obtain ⟨r1, r2, r3, r4⟩ := hr
  rcases Nat.lt_trichotomy q r with h | h | h
  · rcases r2 q q1 h with h' | h'
    · exact absurd h' q3
    · exact absurd h' q4
  · exact h
  · rcases q2 r r1 h with h' | h'
    · exact absurd h' r3
    · exact absurd h' r4

theorem skip_loop_eq (m : List Nat) (p q : Nat) (h : first_nonws m p q) :
    skip_loop (m.length - p) m p = q :=
  first_nonws_unique m p _ q (skip_loop_exit (m.length - p) m p (by omega)) h

/-- The symbol loop leaves at the first byte from `s` on that is NUL, a space,
a newline or not of the Symbol category: the counter did not cut it short. -/
theorem symbol_loop_exit (n : Nat) (m : List Nat) (s : Nat) (h : m.length ≤ s + n) :
    s ≤ symbol_loop n m s ∧
    (∀ i, s ≤ i → i < symbol_loop n m s →
      peek m i ≠ 0 ∧ peek m i ≠ 32 ∧ peek m i ≠ 10 ∧
        next_token_like m i = token_like.TL_SYMBOL) ∧
    (peek m (symbol_loop n m s) = 0 ∨ peek m (symbol_loop n m s) = 32 ∨
      peek m (symbol_loop n m s) = 10 ∨
      next_token_like m (symbol_loop n m s) ≠ token_like.TL_SYMBOL) := by
  induction n generalizing s with
  | zero =>
    have h0 : peek m s = 0 := peek_past m s (by omega)
    refine ⟨Nat.le_refl _, ?_, ?_⟩
    · intro i h1 h2
      simp only [symbol_loop] at h2
      omega
    · left; simpa [symbol_loop] using h0
  | succ n ih =>
    by_cases hc : peek m s ≠ 0 ∧ peek m s ≠ 32 ∧ peek m s ≠ 10
    · by_cases hk : next_token_like m s ≠ token_like.TL_SYMBOL
      · have hr : symbol_loop (n + 1) m s = s := by
          simp only [symbol_loop, if_pos hc, if_pos hk]
        rw [hr]
        exact ⟨Nat.le_refl _, fun i h1 h2 => by omega, Or.inr (Or.inr (Or.inr hk))⟩
      · have hr : symbol_loop (n + 1) m s = symbol_loop n m (s + 1) := by
          simp only [symbol_loop, if_pos hc, if_neg hk]
        rw [hr]
        obtain ⟨h1, h2, h3⟩ := ih (s + 1) (by omega)
        refine ⟨by omega, ?_, h3⟩
        intro i hi1 hi2
        by_cases his : i = s
        · subst his
          exact ⟨hc.1, hc.2.1, hc.2.2, not_not.mp hk⟩
        · exact h2 i (by omega) hi2
    · have hr : symbol_loop (n + 1) m s = s := by
        simp only [symbol_loop, if_neg hc]
      rw [hr]
      refine ⟨Nat.le_refl _, fun i h1 h2 => by omega, ?_⟩
      by_cases h0 : peek m s = 0
      · exact Or.inl h0
      · by_cases h32 : peek m s = 32
        · exact Or.inr (Or.inl h32)
        · by_cases h10 : peek m s = 10
          · exact Or.inr (Or.inr (Or.inl h10))
          · exact absurd ⟨h0, h32, h10⟩ hc

/-- The quote loop finds the first closing quote at `c` when no byte after its
first one is NUL up to there, and returns the offset after it. -/
theorem quote_loop_found (n : Nat) (m : List Nat) (s c : Nat) (hsc : s ≤ c)
    (hc : peek m c = 34) (hno : ∀ i, s ≤ i → i < c → peek m i ≠ 34)
    (hnz : ∀ i, s < i → i ≤ c → peek m i ≠ 0) (h : m.length ≤ s + n) :
    quote_loop n m s = Except.ok (c + 1) := by
  induction n generalizing s with
  | zero =>
    have h0 : peek m c = 0 := peek_past m c (by omega)
    omega
  | succ n ih =>
    by_cases hq : peek m s ≠ 34
    · have hlt : s < c := by
        rcases Nat.eq_or_lt_of_le hsc with h' | h'
        · subst h'; exact absurd hc hq
        · exact h'
      have hz : ¬ peek m (s + 1) = 0 := hnz (s + 1) (by omega) (by omega)
      have hr : quote_loop (n + 1) m s = quote_loop n m (s + 1) := by
        simp only [quote_loop, if_pos hq, if_neg hz]
      rw [hr]
      exact ih (s + 1) (by omega) (fun i h1 h2 => hno i (by omega) h2)
        (fun i h1 h2 => hnz i (by omega) h2) (by omega)
    · have hs : s = c := by
        by_contra hne
        exact hno s (Nat.le_refl _) (by omega) (not_not.mp hq)
      subst hs
      simp only [quote_loop, if_neg hq]

/-- The quote loop ends in the error when at least one character follows the
opening quote and no quote occurs before the terminator at `len`. -/
theorem quote_loop_unterminated (n : Nat) (m : List Nat) (s len : Nat) (hs : s < len)
    (hz : peek m len = 0) (hno : ∀ i, s ≤ i → i < len → peek m i ≠ 34) :
    quote_loop n m s = Except.error (error_type.ERROR_SYNTAX, "unterminated quote") := by
  induction n generalizing s with
  | zero => rfl
  | succ n ih =>
    have hq : peek m s ≠ 34 := hno s (Nat.le_refl _) hs
    by_cases hz1 : peek m (s + 1) = 0
    · simp only [quote_loop, if_pos hq, if_pos hz1]
    · have hr : quote_loop (n + 1) m s = quote_loop n m (s + 1) := by
        simp only [quote_loop, if_pos hq, if_neg hz1]
      rw [hr]
      have hlt : s + 1 < len := by
        by_contra hge
        have : s + 1 = len := by omega
        rw [this] at hz1
        exact hz1 hz
      exact ih (s + 1) hlt (fun i h1 h2 => hno i (by omega) h2)

/-- At counter 0 the quote loop started past the modelled memory, where the
loop of the source reads two zero bytes and ends in the error: a counter of at
least `m.length - s` never cuts the loop short. -/
theorem quote_loop_counter (n : Nat) (m : List Nat) (s : Nat) (h : m.length ≤ s + n) :
    quote_loop (n + 1) m s = quote_loop n m s := by
  induction n generalizing s with
  | zero =>
    have h0 : peek m s = 0 := peek_past m s (by omega)
    have h1 : peek m (s + 1) = 0 := peek_past m (s + 1) (by omega)
    simp [quote_loop, h0, h1]
  | succ n ih =>
    by_cases hq : peek m s ≠ 34
    · by_cases hz : peek m (s + 1) = 0
      · simp only [quote_loop, if_pos hq, if_pos hz]
      · have e1 : quote_loop (n + 1 + 1) m s = quote_loop (n + 1) m (s + 1) := by
          simp only [quote_loop, if_pos hq, if_neg hz]
        have e2 : quote_loop (n + 1) m s = quote_loop n m (s + 1) := by
          simp only [quote_loop, if_pos hq, if_neg hz]
        rw [e1, e2]
        exact ih (s + 1) (by omega)
    · simp only [quote_loop, if_neg hq]

/-- A quote loop that returns has moved past at least one byte. -/
theorem quote_loop_gt (n : Nat) (m : List Nat) (s r : Nat)
    (h : quote_loop n m s = Except.ok r) : s < r := by
  induction n generalizing s with
  | zero => simp [quote_loop] at h
  | succ n ih =>
    by_cases hq : peek m s ≠ 34
    · by_cases hz : peek m (s + 1) = 0
      · simp [quote_loop, hq, hz] at h
      · have e1 : quote_loop (n + 1) m s = quote_loop n m (s + 1) := by
          simp only [quote_loop, if_pos hq, if_neg hz]
        rw [e1] at h
        have := ih (s + 1) h
        omega
    · have e1 : quote_loop (n + 1) m s = Except.ok (s + 1) := by
        simp only [quote_loop, if_neg hq]
      rw [e1] at h
      injection h with h
      omega

/-! ## One call of the scanner -/

/-- With the first non-whitespace offset `q` known, `next_token` is its body
after the whitespace loop, run at `start = q`. -/
theorem next_token_at (m : List Nat) (p q : Nat) (h : first_nonws m p q) :
    next_token m p =
      if next_token_like m q = token_like.TL_QUOT then
        match quote_loop (m.length - (q + 1)) m (q + 1) with
        | Except.error e => Except.error e
        | Except.ok s' => Except.ok ⟨q, s'⟩
      else if next_token_like m q = token_like.TL_EQ then
        if peek m (q + 1) = 61 then Except.ok ⟨q, q + 1 + 1⟩
        else Except.ok ⟨q, q + 1⟩
      else if next_token_like m q = token_like.TL_COLON then
        if peek m (q + 1) = 58 then Except.ok ⟨q, q + 1 + 1⟩
        else Except.error (error_type.ERROR_SYNTAX, "expected ::, found :")
      else if next_token_like m q = token_like.TL_SYMBOL then
        Except.ok ⟨q, symbol_loop (m.length - (q + 1)) m (q + 1)⟩
      else Except.ok ⟨q, q + 1⟩ := by
  simp only [next_token, skip_loop_eq m p q h]

/-- Every cursor has a first non-whitespace offset: the one the whitespace
loop of `next_token` stops at. -/
theorem first_nonws_exists (m : List Nat) (p : Nat) :
    first_nonws m p (skip_loop (m.length - p) m p) :=
  skip_loop_exit (m.length - p) m p (by omega)

/-- The token `next_token` returns starts where its whitespace loop stopped. -/
theorem next_token_start (m : List Nat) (p : Nat) (t : token)
    (h : next_token m p = Except.ok t) : first_nonws m p t.start := by
  have hq := first_nonws_exists m p
  have hs : t.start = skip_loop (m.length - p) m p := by
    rw [next_token_at m p _ hq] at h
    split_ifs at h
    · split at h
      · exact absurd h (by simp)
      · injection h with h; rw [← h]
    all_goals (injection h with h; rw [← h])
  rw [hs]
  exact hq

/-- The Symbol branch: the token runs from `q` to where the symbol loop,
started at `q + 1`, leaves. -/
theorem next_token_symbol (m : List Nat) (p q : Nat) (h : first_nonws m p q)
    (hk : next_token_like m q = token_like.TL_SYMBOL) :
    next_token m p = Except.ok ⟨q, symbol_loop (m.length - (q + 1)) m (q + 1)⟩ := by
  rw [next_token_at m p q h]
  simp [hk]

/-- The byte at `q` decides the category: the branches of `next_token` for the
categories with a rule of their own. -/
theorem next_token_like_eq (m : List Nat) (q : Nat) (h : peek m q = 61) :
    next_token_like m q = token_like.TL_EQ := by
  simp [next_token_like, h]

theorem next_token_like_quot (m : List Nat) (q : Nat) (h : peek m q = 34) :
    next_token_like m q = token_like.TL_QUOT := by
  simp [next_token_like, h]

theorem next_token_like_colon (m : List Nat) (q : Nat) (h : peek m q = 58) :
    next_token_like m q = token_like.TL_COLON := by
  simp [next_token_like, h]

/-- A byte that is none of the eleven characters of the switch is a Symbol. -/
theorem next_token_like_symbol (m : List Nat) (q : Nat)
    (h : peek m q ≠ 61 ∧ peek m q ≠ 43 ∧ peek m q ≠ 34 ∧ peek m q ≠ 123 ∧
      peek m q ≠ 125 ∧ peek m q ≠ 40 ∧ peek m q ≠ 41 ∧ peek m q ≠ 44 ∧
      peek m q ≠ 59 ∧ peek m q ≠ 46 ∧ peek m q ≠ 58) :
    next_token_like m q = token_like.TL_SYMBOL := by
  obtain ⟨h1, h2, h3, h4, h5, h6, h7, h8, h9, h10, h11⟩ := h
  simp [next_token_like, h1, h2, h3, h4, h5, h6, h7, h8, h9, h10, h11]

/-- When the whitespace loop stops on a zero byte, `next_token` still steps over
it (`next_token_like(s++)`) and returns a token of at least that one byte. -/
theorem next_token_at_nul (m : List Nat) (p q : Nat) (h : first_nonws m p q)
    (hz : peek m q = 0) :
    ∃ e, next_token m p = Except.ok ⟨q, e⟩ ∧ q < e := by
  have hk : next_token_like m q = token_like.TL_SYMBOL :=
    next_token_like_symbol m q (by simp [hz])
  refine ⟨_, next_token_symbol m p q h hk, ?_⟩
  have := (symbol_loop_exit (m.length - (q + 1)) m (q + 1) (by omega)).1
  omega

/-- The bytes of a span are the bytes of memory at its offsets. -/
theorem span_text_getD (m : List Nat) (t : token) (i : Nat)
    (h : i < t.end_ - t.start) :
    (span_text m t).getD i 0 = peek m (t.start + i) := by
  simp [span_text, peek, List.getD_eq_getElem?_getD, List.getElem?_take, h]

/-- A returned token is never empty: every branch of `next_token` has already
stepped over the byte at `start` (`next_token_like(s++)`). -/
theorem next_token_advances (m : List Nat) (p : Nat) (t : token)
    (h : next_token m p = Except.ok t) : p ≤ t.start ∧ t.start < t.end_ := by
  have hq := first_nonws_exists m p
  refine ⟨(next_token_start m p t h).1, ?_⟩
  rw [next_token_at m p _ hq] at h
  split_ifs at h
  · split at h
    · exact absurd h (by simp)
    · rename_i r hr
      have := quote_loop_gt _ m _ r hr
      injection h with h
      rw [← h]
      simp only
      omega
  · injection h with h; rw [← h]; simp only; omega
  · injection h with h; rw [← h]; simp only; omega
  · injection h with h; rw [← h]; simp only; omega
  · have := (symbol_loop_exit (m.length - (skip_loop (m.length - p) m p + 1)) m
      (skip_loop (m.length - p) m p + 1) (by omega)).1
    injection h with h; rw [← h]; simp only; omega
  · injection h with h; rw [← h]; simp only; omega

/-- Only the byte `"` classifies as a quote. -/
theorem next_token_like_quot_inv (m : List Nat) (q : Nat)
    (h : next_token_like m q = token_like.TL_QUOT) : peek m q = 34 := by
  by_contra h3
  by_cases h1 : peek m q = 61
  · simp [next_token_like, h1] at h
  by_cases h2 : peek m q = 43
  · simp [next_token_like, h2] at h
  by_cases h4 : peek m q = 123
  · simp [next_token_like, h4] at h
  by_cases h5 : peek m q = 125
  · simp [next_token_like, h5] at h
  by_cases h6 : peek m q = 40
  · simp [next_token_like, h6] at h
  by_cases h7 : peek m q = 41
  · simp [next_token_like, h7] at h
  by_cases h8 : peek m q = 44
  · simp [next_token_like, h8] at h
  by_cases h9 : peek m q = 59
  · simp [next_token_like, h9] at h
  by_cases h10 : peek m q = 46
  · simp [next_token_like, h10] at h
  by_cases h11 : peek m q = 58
  · simp [next_token_like, h11] at h
  rw [next_token_like_symbol m q ⟨h1, h2, h3, h4, h5, h6, h7, h8, h9, h10, h11⟩] at h
  exact token_like.noConfusion h

/-- A quote loop started inside the text, before the terminator at `len`,
returns an offset inside the text or the terminator's. -/
theorem quote_loop_le (n : Nat) (m : List Nat) (s len r : Nat) (hs : s < len)
    (hz : peek m len = 0) (h : quote_loop n m s = Except.ok r) : r ≤ len := by
  induction n generalizing s with
  | zero => simp [quote_loop] at h
  | succ n ih =>
    by_cases hq : peek m s ≠ 34
    · by_cases hz1 : peek m (s + 1) = 0
      · simp [quote_loop, hq, hz1] at h
      · have e1 : quote_loop (n + 1) m s = quote_loop n m (s + 1) := by
          simp only [quote_loop, if_pos hq, if_neg hz1]
        rw [e1] at h
        have hlt : s + 1 < len := by
          by_contra hge
          have : s + 1 = len := by omega
          rw [this] at hz1
          exact hz1 hz
        exact ih (s + 1) hlt h
    · have e1 : quote_loop (n + 1) m s = Except.ok (s + 1) := by
        simp only [quote_loop, if_neg hq]
      rw [e1] at h
      injection h with h
      omega

/-- A token that starts on a character of the source, and not on an opening
quote that is the source's last character, ends inside the source or at its
terminator. -/
theorem next_token_within (m : List Nat) (len p : Nat) (t : token)
    (hlen : cstring m len) (h : next_token m p = Except.ok t) (hs : t.start < len)
    (hq : peek m t.start = 34 → t.start + 1 < len) : t.end_ ≤ len := by
  have hq0 := first_nonws_exists m p
  have hst : t.start = skip_loop (m.length - p) m p :=
    first_nonws_unique m p _ _ (next_token_start m p t h) hq0
  rw [hst] at hs hq
  have hnext : ∀ c, c ≠ 0 →
      peek m (skip_loop (m.length - p) m p + 1) = c →
      skip_loop (m.length - p) m p + 1 + 1 ≤ len := by
    intro c hc hp
    by_contra hgt
    have : skip_loop (m.length - p) m p + 1 = len := by omega
    rw [this, hlen.1] at hp
    exact hc hp.symm
  rw [next_token_at m p _ hq0] at h
  split_ifs at h with h1 h2 h3 h4 h5 h6
  · split at h
    · exact absurd h (by simp)
    · rename_i r hr
      have := quote_loop_le _ m _ len r (hq (next_token_like_quot_inv m _ h1)) hlen.1 hr
      injection h with h
      rw [← h]
      exact this
  · injection h with h; rw [← h]; exact hnext 61 (by decide) h3
  · injection h with h; rw [← h]; simp only; omega
  · injection h with h; rw [← h]; exact hnext 58 (by decide) h5
  · obtain ⟨_, h2', _⟩ := symbol_loop_exit
      (m.length - (skip_loop (m.length - p) m p + 1)) m
      (skip_loop (m.length - p) m p + 1) (by omega)
    injection h with h
    rw [← h]
    simp only
    by_contra hgt
    exact (h2' len (by omega) (by omega)).1 hlen.1
  · injection h with h; rw [← h]; simp only; omega

/-- A counter of at least `m.length - srcp` never cuts the loop of `main`
short: one more changes nothing. -/
theorem main_loop_counter (n : Nat) (m : List Nat) (srcp : Nat) (tok : token)
    (out : List token) (h : m.length ≤ srcp + n) :
    main_loop (n + 1) m srcp tok out = main_loop n m srcp tok out := by
  induction n generalizing srcp tok out with
  | zero =>
    have h0 : peek m srcp = 0 := peek_past m srcp (by omega)
    simp [main_loop, h0]
  | succ n ih =>
    by_cases hc : (tok.end_ : Int) - (tok.start : Int) > 0 ∧ peek m srcp ≠ 0
    · cases hn : next_token m srcp with
      | error e => simp only [main_loop, if_pos hc, hn]
      | ok t =>
        have hadv := next_token_advances m srcp t hn
        have e1 : main_loop (n + 1 + 1) m srcp tok out =
            main_loop (n + 1) m t.end_ t (out ++ [t]) := by
          simp only [main_loop, if_pos hc, hn]
        have e2 : main_loop (n + 1) m srcp tok out =
            main_loop n m t.end_ t (out ++ [t]) := by
          simp only [main_loop, if_pos hc, hn]
        rw [e1, e2]
        exact ih t.end_ t (out ++ [t]) (by omega)
    · simp only [main_loop, if_neg hc]

/-- An opening quote followed by at least one character of the source and by no
further quote before the terminator ends `next_token` in the Syntax error
"unterminated quote". -/
theorem unterminated_quote_rejected (m : List Nat) (len p q : Nat)
    (hlen : cstring m len) (h : first_nonws m p q) (hq : peek m q = 34)
    (hlt : q + 1 < len) (hno : ∀ i, q < i → i < len → peek m i ≠ 34) :
    next_token m p = Except.error (error_type.ERROR_SYNTAX, "unterminated quote") := by
  have hl := quote_loop_unterminated (m.length - (q + 1)) m (q + 1) len hlt hlen.1
    (fun i h1 h2 => hno i (by omega) h2)
  rw [next_token_at m p q h]
  simp [next_token_like_quot m q hq, hl]

/-- The switch of `next_token_like` read as a table: the byte at `q` is one of
the eleven characters and the category is that character's, or it is none of
them and the category is Symbol. -/
theorem next_token_like_cases (m : List Nat) (q : Nat) :
    (peek m q = 61 ∧ next_token_like m q = token_like.TL_EQ) ∨
    (peek m q = 43 ∧ next_token_like m q = token_like.TL_PLUS) ∨
    (peek m q = 34 ∧ next_token_like m q = token_like.TL_QUOT) ∨
    (peek m q = 123 ∧ next_token_like m q = token_like.TL_BRACE_OPEN) ∨
    (peek m q = 125 ∧ next_token_like m q = token_like.TL_BRACE_END) ∨
    (peek m q = 40 ∧ next_token_like m q = token_like.TL_PAREN_OPEN) ∨
    (peek m q = 41 ∧ next_token_like m q = token_like.TL_PAREN_END) ∨
    (peek m q = 44 ∧ next_token_like m q = token_like.TL_COMMA) ∨
    (peek m q = 59 ∧ next_token_like m q = token_like.TL_SEMIC) ∨
    (peek m q = 46 ∧ next_token_like m q = token_like.TL_DOT) ∨
    (peek m q = 58 ∧ next_token_like m q = token_like.TL_COLON) ∨
    ((peek m q ≠ 61 ∧ peek m q ≠ 43 ∧ peek m q ≠ 34 ∧ peek m q ≠ 123 ∧
      peek m q ≠ 125 ∧ peek m q ≠ 40 ∧ peek m q ≠ 41 ∧ peek m q ≠ 44 ∧
      peek m q ≠ 59 ∧ peek m q ≠ 46 ∧ peek m q ≠ 58) ∧
      next_token_like m q = token_like.TL_SYMBOL) := by
  by_cases h1 : peek m q = 61
  · exact Or.inl ⟨h1, by simp [next_token_like, h1]⟩
  refine Or.inr ?_
  by_cases h2 : peek m q = 43
  · exact Or.inl ⟨h2, by simp [next_token_like, h2]⟩
  refine Or.inr ?_
  by_cases h3 : peek m q = 34
  · exact Or.inl ⟨h3, by simp [next_token_like, h3]⟩
  refine Or.inr ?_
  by_cases h4 : peek m q = 123
  · exact Or.inl ⟨h4, by simp [next_token_like, h4]⟩
  refine Or.inr ?_
  by_cases h5 : peek m q = 125
  · exact Or.inl ⟨h5, by simp [next_token_like, h5]⟩
  refine Or.inr ?_
  by_cases h6 : peek m q = 40
  · exact Or.inl ⟨h6, by simp [next_token_like, h6]⟩
  refine Or.inr ?_
  by_cases h7 : peek m q = 41
  · exact Or.inl ⟨h7, by simp [next_token_like, h7]⟩
  refine Or.inr ?_
  by_cases h8 : peek m q = 44
  · exact Or.inl ⟨h8, by simp [next_token_like, h8]⟩
  refine Or.inr ?_
  by_cases h9 : peek m q = 59
  · exact Or.inl ⟨h9, by simp [next_token_like, h9]⟩
  refine Or.inr ?_
  by_cases h10 : peek m q = 46
  · exact Or.inl ⟨h10, by simp [next_token_like, h10]⟩
  refine Or.inr ?_
  by_cases h11 : peek m q = 58
  · exact Or.inl ⟨h11, by simp [next_token_like, h11]⟩
  exact Or.inr ⟨⟨h1, h2, h3, h4, h5, h6, h7, h8, h9, h10, h11⟩,
    next_token_like_symbol m q ⟨h1, h2, h3, h4, h5, h6, h7, h8, h9, h10, h11⟩⟩

/-- Only the byte `:` classifies as a colon. -/
theorem next_token_like_colon_inv (m : List Nat) (q : Nat)
    (h : next_token_like m q = token_like.TL_COLON) : peek m q = 58 := by
  have hc := next_token_like_cases m q
  by_contra hne
  simp [h, hne] at hc

/-- The only error the quote loop ends in is the Syntax error "unterminated
quote". -/
theorem quote_loop_error (n : Nat) (m : List Nat) (s : Nat) (e : error_type × String)
    (h : quote_loop n m s = Except.error e) :
    e = (error_type.ERROR_SYNTAX, "unterminated quote") := by
  induction n generalizing s with
  | zero =>
    simp only [quote_loop] at h
    injection h with h
    exact h.symm
  | succ n ih =>
    by_cases hq : peek m s ≠ 34
    · by_cases hz : peek m (s + 1) = 0
      · simp only [quote_loop, if_pos hq, if_pos hz] at h
        injection h with h
        exact h.symm
      · have e1 : quote_loop (n + 1) m s = quote_loop n m (s + 1) := by
          simp only [quote_loop, if_pos hq, if_neg hz]
        rw [e1] at h
        exact ih (s + 1) h
    · simp only [quote_loop, if_neg hq] at h
      exact absurd h (by simp)

/-- Every call moves the cursor forward: after `k` calls that all return, the
cursor has advanced by at least `k`. -/
theorem next_token_iter_advances (k : Nat) (m : List Nat) (p c : Nat)
    (h : next_token_iter k m p = Except.ok c) : p + k ≤ c := by
  induction k generalizing p with
  | zero =>
    simp only [next_token_iter] at h
    injection h with h
    omega
  | succ k ih =>
    cases hn : next_token m p with
    | error e =>
      simp only [next_token_iter, hn] at h
      exact absurd h (by simp)
    | ok t =>
      simp only [next_token_iter, hn] at h
      have h1 := next_token_advances m p t hn
      have h2 := ih t.end_ h
      omega

/-- The text of a NUL-terminated string lies inside the modelled memory. -/
theorem cstring_le_length (m : List Nat) (len : Nat) (h : cstring m len) :
    len ≤ m.length := by
  by_contra hgt
  exact h.2 m.length (by omega) (peek_past m m.length (Nat.le_refl _))

/-- An opening quote followed by two zero bytes ends `next_token` in the Syntax
error "unterminated quote". -/
theorem lone_quote_error (m : List Nat) (p q : Nat) (h : first_nonws m p q)
    (hq : peek m q = 34) (h1 : peek m (q + 1) = 0) (h2 : peek m (q + 1 + 1) = 0) :
    next_token m p = Except.error (error_type.ERROR_SYNTAX, "unterminated quote") := by
  have hl : quote_loop (m.length - (q + 1)) m (q + 1) =
      Except.error (error_type.ERROR_SYNTAX, "unterminated quote") := by
    cases m.length - (q + 1) with
    | zero => rfl
    | succ n => simp [quote_loop, h1, h2]
  rw [next_token_at m p q h]
  simp [next_token_like_quot m q hq, hl]

/-- The invariant of the loop of `main` on a text that does not end in
whitespace and has a zero byte after its terminator: what the loop prints from
the cursor `srcp` on tiles the rest of the text, and the loop leaves with the
cursor on the terminator. -/
theorem main_loop_tiling (n : Nat) (m : List Nat) (len srcp : Nat) (tok : token)
    (out toks : List token) (c : Nat) (hlen : cstring m len) (hpos : 0 < len)
    (hlast : peek m (len - 1) ≠ 32 ∧ peek m (len - 1) ≠ 10)
    (hafter : peek m (len + 1) = 0) (hsrcp : srcp ≤ len) (hn : len < srcp + n)
    (htok : tok.start < tok.end_)
    (h : main_loop n m srcp tok out = Except.ok (toks, c)) :
    ∃ new, toks = out ++ new ∧ tiles m len srcp new ∧ c = len := by
  induction n generalizing srcp tok out with
  | zero => omega
  | succ n ih =>
    by_cases hc : (tok.end_ : Int) - (tok.start : Int) > 0 ∧ peek m srcp ≠ 0
    · have hlt : srcp < len := by
        rcases Nat.eq_or_lt_of_le hsrcp with h' | h'
        · rw [h'] at hc
          exact absurd hlen.1 hc.2
        · exact h'
      cases hnt : next_token m srcp with
      | error e =>
        simp only [main_loop, if_pos hc, hnt] at h
        exact absurd h (by simp)
      | ok t =>
        simp only [main_loop, if_pos hc, hnt] at h
        have hadv := next_token_advances m srcp t hnt
        have hst := next_token_start m srcp t hnt
        have hstart : t.start < len := by
          by_contra hge
          rcases hst.2.1 (len - 1) (by omega) (by omega) with h' | h'
          · exact hlast.1 h'
          · exact hlast.2 h'
        have hend : t.end_ ≤ len := by
          refine next_token_within m len srcp t hlen hnt hstart ?_
          intro hq
          by_contra hge
          have hq1 : t.start + 1 = len := by omega
          have herr := lone_quote_error m srcp t.start hst hq
            (by rw [hq1]; exact hlen.1) (by rw [hq1]; exact hafter)
          rw [herr] at hnt
          exact absurd hnt (by simp)
        obtain ⟨new, h1, h2, h3⟩ := ih t.end_ t (out ++ [t]) hend (by omega) hadv.2 h
        refine ⟨t :: new, by simp [h1], ?_, h3⟩
        exact ⟨hst, hadv.2, hend, fun i _ hi => hlen.2 i (by omega), h2⟩
    · simp only [main_loop, if_neg hc] at h
      injection h with h
      injection h with h1 h2
      refine ⟨[], by simp [h1], trivial, ?_⟩
      have hz : peek m srcp = 0 := by
        by_contra hnz
        exact hc ⟨by omega, hnz⟩
      rw [← h2]
      by_contra hne
      exact hlen.2 srcp (by omega) hz

/-- The loop of `main` tiles every non-empty text that does not end in
whitespace and has a zero byte after its terminator: when it ends without a
syntax error the cursor is on the terminator and the printed spans tile the
text. -/
theorem main_tokens_tiling (m : List Nat) (len : Nat) (toks : List token) (c : Nat)
    (hlen : cstring m len) (hpos : 0 < len)
    (hlast : peek m (len - 1) ≠ 32 ∧ peek m (len - 1) ≠ 10)
    (hafter : peek m (len + 1) = 0)
    (h : main_tokens m = Except.ok (toks, c)) :
    c = len ∧ tiles m len 0 toks := by
  cases hnt : next_token m 0 with
  | error e =>
    simp only [main_tokens, hnt] at h
    exact absurd h (by simp)
  | ok t =>
    simp only [main_tokens, hnt] at h
    have hle := cstring_le_length m len hlen
    obtain ⟨new, h1, h2, h3⟩ := main_loop_tiling (m.length + 1) m len 0 t [] toks c
      hlen hpos hlast hafter (Nat.zero_le _) (by omega) (next_token_advances m 0 t hnt).2 h
    rw [List.nil_append] at h1
    rw [h1]
    exact ⟨h3, h2⟩

/-! ## The claims -/

/-- C1. Round trip, at the source "a" followed by a newline (length 2): the
loop of `main` prints the span `[0, 1)` and then the span `[2, 3)`, which is
the terminator itself and lies outside the text; spans and skipped whitespace
put together give the three bytes `a`, newline, NUL, not the two bytes of the
source.  A source of one space ends the same way. -/
theorem round_trip_trailing_newline :
    cstring (buffer "a\n") 2 ∧
    main_tokens (buffer "a\n") = Except.ok ([⟨0, 1⟩, ⟨2, 3⟩], 3) ∧
    rebuild (buffer "a\n") 0 [⟨0, 1⟩, ⟨2, 3⟩] = [97, 10, 0] ∧
    (buffer "a\n").take 2 = [97, 10] ∧
    cstring (buffer " ") 1 ∧
    main_tokens (buffer " ") = Except.ok ([⟨1, 2⟩], 2) := by
  refine ⟨by decide, rfl, rfl, rfl, by decide, rfl⟩

/-- C2. Zero-length token, at the empty source and at a source of whitespace
only: `next_token` returns a token of length 1 that starts at the terminator,
and for the empty source it does so whatever bytes follow the terminator in
memory. -/
theorem zero_length_token_absent :
    next_token (buffer "") 0 = Except.ok ⟨0, 1⟩ ∧
    next_token (buffer " \n ") 0 = Except.ok ⟨3, 4⟩ ∧
    (∀ rest : List Nat, ∃ e, next_token (0 :: rest) 0 = Except.ok ⟨0, e⟩ ∧ 0 < e) := by
  refine ⟨rfl, rfl, ?_⟩
  intro rest
  exact next_token_at_nul (0 :: rest) 0 0
    ⟨Nat.le_refl _, fun i h1 h2 => by omega, by simp [peek], by simp [peek]⟩
    (by simp [peek])

/-- C3. Token bounds, at the source "a " (length 2) and cursor 1: `next_token`
returns the token `[2, 3)`, whose end is past the terminator at offset 2, and
the end is past the terminator whatever bytes follow it in memory. -/
theorem token_end_past_terminator :
    cstring (buffer "a ") 2 ∧
    next_token (buffer "a ") 1 = Except.ok ⟨2, 3⟩ ∧
    (∀ rest : List Nat,
      ∃ e, next_token (97 :: 32 :: 0 :: rest) 1 = Except.ok ⟨2, e⟩ ∧ 2 < e) := by
  refine ⟨by decide, rfl, ?_⟩
  intro rest
  refine next_token_at_nul (97 :: 32 :: 0 :: rest) 1 2 ⟨by omega, ?_, ?_, ?_⟩ ?_
  · intro i h1 h2
    have hi : i = 1 := by omega
    subst hi
    left
    simp [peek]
  · simp [peek]
  · simp [peek]
  · simp [peek]

/-- C4. Symbol run is maximal munch: when the first non-whitespace character
classifies as Symbol, `next_token` returns the span from that character to the
first later offset `e` whose byte is NUL, a space, a newline or not of the
Symbol category; every byte strictly between is non-NUL, not whitespace and of
the Symbol category, no longer span has that property, and in a NUL-terminated
source the span stays inside the text and a NUL at `e` is the terminator.  The
byte at `e` is left for the next call: "foo+bar" scans as foo, +, bar and
"foo123 bar" as foo123, bar. -/
theorem symbol_run_maximal_munch :
    (∀ (m : List Nat) (p q : Nat), first_nonws m p q →
      next_token_like m q = token_like.TL_SYMBOL →
      ∃ e, next_token m p = Except.ok ⟨q, e⟩ ∧ q < e ∧
        (∀ i, q < i → i < e →
          peek m i ≠ 0 ∧ peek m i ≠ 32 ∧ peek m i ≠ 10 ∧
            next_token_like m i = token_like.TL_SYMBOL) ∧
        (peek m e = 0 ∨ peek m e = 32 ∨ peek m e = 10 ∨
          next_token_like m e ≠ token_like.TL_SYMBOL) ∧
        (∀ e', q < e' →
          (∀ i, q < i → i < e' →
            peek m i ≠ 0 ∧ peek m i ≠ 32 ∧ peek m i ≠ 10 ∧
              next_token_like m i = token_like.TL_SYMBOL) → e' ≤ e) ∧
        (∀ len, cstring m len → q < len → e ≤ len ∧ (peek m e = 0 → e = len))) ∧
    main_tokens (buffer "foo+bar") = Except.ok ([⟨0, 3⟩, ⟨3, 4⟩, ⟨4, 7⟩], 7) ∧
    main_tokens (buffer "foo123 bar") = Except.ok ([⟨0, 6⟩, ⟨7, 10⟩], 10) := by
  refine ⟨?_, rfl, rfl⟩
  intro m p q h hk
  obtain ⟨h1, h2, h3⟩ := symbol_loop_exit (m.length - (q + 1)) m (q + 1) (by omega)
  refine ⟨_, next_token_symbol m p q h hk, by omega, ?_, h3, ?_, ?_⟩
  · intro i hi1 hi2
    exact h2 i (by omega) hi2
  · intro e' _ hall
    by_contra hgt
    have hbad := hall (symbol_loop (m.length - (q + 1)) m (q + 1)) (by omega) (by omega)
    rcases h3 with h0 | h32 | h10 | hns
    · exact hbad.1 h0
    · exact hbad.2.1 h32
    · exact hbad.2.2.1 h10
    · exact hns hbad.2.2.2
  · intro len hlen hq
    have hle : symbol_loop (m.length - (q + 1)) m (q + 1) ≤ len := by
      by_contra hgt
      exact (h2 len (by omega) (by omega)).1 hlen.1
    refine ⟨hle, fun hz => ?_⟩
    by_contra hne
    exact hlen.2 _ (by omega) hz

/-- Witness of C4 at the source "foo123 bar", cursor 6: the first non-whitespace
character is the `b` at offset 7, a Symbol. -/
theorem symbol_run_maximal_munch_witness :
    ∃ e, next_token (buffer "foo123 bar") 6 = Except.ok ⟨7, e⟩ ∧ 7 < e ∧
      (∀ i, 7 < i → i < e →
        peek (buffer "foo123 bar") i ≠ 0 ∧ peek (buffer "foo123 bar") i ≠ 32 ∧
          peek (buffer "foo123 bar") i ≠ 10 ∧
          next_token_like (buffer "foo123 bar") i = token_like.TL_SYMBOL) ∧
      (peek (buffer "foo123 bar") e = 0 ∨ peek (buffer "foo123 bar") e = 32 ∨
        peek (buffer "foo123 bar") e = 10 ∨
        next_token_like (buffer "foo123 bar") e ≠ token_like.TL_SYMBOL) ∧
      (∀ e', 7 < e' →
        (∀ i, 7 < i → i < e' →
          peek (buffer "foo123 bar") i ≠ 0 ∧ peek (buffer "foo123 bar") i ≠ 32 ∧
            peek (buffer "foo123 bar") i ≠ 10 ∧
            next_token_like (buffer "foo123 bar") i = token_like.TL_SYMBOL) → e' ≤ e) ∧
      (∀ len, cstring (buffer "foo123 bar") len → 7 < len →
        e ≤ len ∧ (peek (buffer "foo123 bar") e = 0 → e = len)) :=
  symbol_run_maximal_munch.1 (buffer "foo123 bar") 6 7 (by decide) (by decide)

/-- C5. Unterminated quote, at the source of the single character `"` (length
1): the quote loop compares the terminator with `"` and steps over it before
its test for NUL, which then reads the byte after the terminator.  With the
bytes `x` and `"` there `next_token` returns the token `[0, 4)` and no error;
with a zero byte there it ends in the error. -/
theorem lone_quote_reads_past_terminator :
    cstring [34, 0, 120, 34, 0] 1 ∧
    first_nonws [34, 0, 120, 34, 0] 0 0 ∧
    next_token [34, 0, 120, 34, 0] 0 = Except.ok ⟨0, 4⟩ ∧
    next_token [34, 0, 0] 0 =
      Except.error (error_type.ERROR_SYNTAX, "unterminated quote") := by
  refine ⟨by decide, by decide, rfl, rfl⟩

/-- C6. Quoted literal span: in a NUL-terminated source whose first
non-whitespace character is the quote at `q` and whose first later quote, at
`c`, comes before the terminator, `next_token` returns the token `[q, c+1)`,
whatever the bytes between the quotes are; the span holds both quotes and the
bytes between them as they stand in the source.  The source `"abc"` gives one
token of 5 characters and `""` one of 2. -/
theorem quoted_literal_span :
    (∀ (m : List Nat) (len p q c : Nat), cstring m len → first_nonws m p q →
      peek m q = 34 → q < c → c < len → peek m c = 34 →
      (∀ i, q < i → i < c → peek m i ≠ 34) →
      next_token m p = Except.ok ⟨q, c + 1⟩ ∧
        (∀ i, i < c + 1 - q → (span_text m ⟨q, c + 1⟩).getD i 0 = peek m (q + i))) ∧
    next_token (buffer "\"abc\"") 0 = Except.ok ⟨0, 5⟩ ∧
    span_text (buffer "\"abc\"") ⟨0, 5⟩ = [34, 97, 98, 99, 34] ∧
    next_token (buffer "\"\"") 0 = Except.ok ⟨0, 2⟩ ∧
    next_token (buffer "\"a b;\n+\" c") 0 = Except.ok ⟨0, 8⟩ := by
  refine ⟨?_, rfl, rfl, rfl, rfl⟩
  intro m len p q c hlen h hq hqc hc hcq hno
  refine ⟨?_, fun i hi => span_text_getD m ⟨q, c + 1⟩ i hi⟩
  have hl := quote_loop_found (m.length - (q + 1)) m (q + 1) c (by omega) hcq
    (fun i h1 h2 => hno i (by omega) h2)
    (fun i h1 h2 => hlen.2 i (by omega)) (by omega)
  rw [next_token_at m p q h]
  simp [next_token_like_quot m q hq, hl]

/-- Witness of C6 at the source ` "a b"`, cursor 0: the opening quote is at
offset 1 and the first later quote at offset 5. -/
theorem quoted_literal_span_witness :
    next_token (buffer " \"a b\"") 0 = Except.ok ⟨1, 5 + 1⟩ ∧
      (∀ i, i < 5 + 1 - 1 →
        (span_text (buffer " \"a b\"") ⟨1, 5 + 1⟩).getD i 0 =
          peek (buffer " \"a b\"") (1 + i)) :=
  quoted_literal_span.1 (buffer " \"a b\"") 6 0 1 5 (by decide) (by decide)
    (by decide) (by decide) (by decide) (by decide)
    (fun i h1 h2 => by interval_cases i <;> decide)

/-- C7. Colon rule: when the first non-whitespace character is `:`,
`next_token` returns the two-character token `::` if the byte right after it is
`:` too, and otherwise (any other byte, the terminator included) ends in the
Syntax error "expected ::, found :" with no token; so a token is returned if
and only if the next byte is `:`. -/
theorem colon_rule :
    (∀ (m : List Nat) (p q : Nat), first_nonws m p q → peek m q = 58 →
      (peek m (q + 1) = 58 → next_token m p = Except.ok ⟨q, q + 2⟩) ∧
      (peek m (q + 1) ≠ 58 → next_token m p =
        Except.error (error_type.ERROR_SYNTAX, "expected ::, found :")) ∧
      ((∃ t, next_token m p = Except.ok t) ↔ peek m (q + 1) = 58)) ∧
    next_token (buffer "::") 0 = Except.ok ⟨0, 2⟩ ∧
    span_text (buffer "::") ⟨0, 2⟩ = [58, 58] ∧
    next_token (buffer ":") 0 =
      Except.error (error_type.ERROR_SYNTAX, "expected ::, found :") ∧
    next_token (buffer ":a") 0 =
      Except.error (error_type.ERROR_SYNTAX, "expected ::, found :") := by
  refine ⟨?_, rfl, rfl, rfl, rfl⟩
  intro m p q h hq
  have hyes : peek m (q + 1) = 58 → next_token m p = Except.ok ⟨q, q + 2⟩ := by
    intro hn
    rw [next_token_at m p q h]
    simp [next_token_like_colon m q hq, hn]
  have hno : peek m (q + 1) ≠ 58 → next_token m p =
      Except.error (error_type.ERROR_SYNTAX, "expected ::, found :") := by
    intro hn
    rw [next_token_at m p q h]
    simp [next_token_like_colon m q hq, hn]
  refine ⟨hyes, hno, ?_, fun hn => ⟨_, hyes hn⟩⟩
  rintro ⟨t, ht⟩
  by_contra hn
  rw [hno hn] at ht
  exact absurd ht (by simp)

/-- Witness of C7 at the source ` ::x`, cursor 0: the colon is at offset 1 and
is followed by a colon. -/
theorem colon_rule_witness :
    (peek (buffer " ::x") (1 + 1) = 58 →
      next_token (buffer " ::x") 0 = Except.ok ⟨1, 1 + 2⟩) ∧
    (peek (buffer " ::x") (1 + 1) ≠ 58 → next_token (buffer " ::x") 0 =
      Except.error (error_type.ERROR_SYNTAX, "expected ::, found :")) ∧
    ((∃ t, next_token (buffer " ::x") 0 = Except.ok t) ↔
      peek (buffer " ::x") (1 + 1) = 58) :=
  colon_rule.1 (buffer " ::x") 0 1 (by decide) (by decide)

/-- C8. Eq rule: when the first non-whitespace character is `=`, `next_token`
returns a token of length 2 if the next byte is `=` too and of length 1
otherwise, never more; "===" scans as `==` from offset 0 and as `=` from the
first token's end. -/
theorem eq_rule :
    (∀ (m : List Nat) (p q : Nat), first_nonws m p q → peek m q = 61 →
      (peek m (q + 1) = 61 → next_token m p = Except.ok ⟨q, q + 2⟩) ∧
      (peek m (q + 1) ≠ 61 → next_token m p = Except.ok ⟨q, q + 1⟩)) ∧
    next_token (buffer "===") 0 = Except.ok ⟨0, 2⟩ ∧
    next_token (buffer "===") 2 = Except.ok ⟨2, 3⟩ ∧
    main_tokens (buffer "===") = Except.ok ([⟨0, 2⟩, ⟨2, 3⟩], 3) ∧
    next_token (buffer "=") 0 = Except.ok ⟨0, 1⟩ ∧
    next_token (buffer "==") 0 = Except.ok ⟨0, 2⟩ := by
  refine ⟨?_, rfl, rfl, rfl, rfl, rfl⟩
  intro m p q h hq
  constructor
  · intro hn
    rw [next_token_at m p q h]
    simp [next_token_like_eq m q hq, hn]
  · intro hn
    rw [next_token_at m p q h]
    simp [next_token_like_eq m q hq, hn]

/-- Witness of C8 at the source `x =y`, cursor 1: the `=` is at offset 2 and
is followed by `y`. -/
theorem eq_rule_witness :
    (peek (buffer "x =y") (2 + 1) = 61 →
      next_token (buffer "x =y") 1 = Except.ok ⟨2, 2 + 2⟩) ∧
    (peek (buffer "x =y") (2 + 1) ≠ 61 →
      next_token (buffer "x =y") 1 = Except.ok ⟨2, 2 + 1⟩) :=
  eq_rule.1 (buffer "x =y") 1 2 (by decide) (by decide)

/-- C9. Whitespace skip: the token `next_token` returns starts at the least
offset at or after the cursor whose byte is neither a space nor a newline, and
every byte from the cursor up to there is a space or a newline.  No other byte
is skipped: when the byte at the cursor is neither, the token starts at the
cursor, and a tab or a carriage return there is the first byte of a Symbol
token. -/
theorem whitespace_skip :
    (∀ (m : List Nat) (p : Nat) (t : token), next_token m p = Except.ok t →
      p ≤ t.start ∧
      (∀ i, p ≤ i → i < t.start → (peek m i = 32 ∨ peek m i = 10)) ∧
      peek m t.start ≠ 32 ∧ peek m t.start ≠ 10 ∧
      (∀ j, p ≤ j → peek m j ≠ 32 → peek m j ≠ 10 → t.start ≤ j)) ∧
    (∀ (m : List Nat) (p : Nat) (t : token), peek m p ≠ 32 → peek m p ≠ 10 →
      next_token m p = Except.ok t → t.start = p) ∧
    (∀ (m : List Nat) (p : Nat), peek m p = 9 ∨ peek m p = 13 →
      next_token_like m p = token_like.TL_SYMBOL ∧
        ∃ e, next_token m p = Except.ok ⟨p, e⟩ ∧ p < e) ∧
    next_token (buffer " \n\n x") 0 = Except.ok ⟨4, 5⟩ ∧
    next_token (buffer " \tx y") 0 = Except.ok ⟨1, 3⟩ := by
  refine ⟨?_, ?_, ?_, rfl, rfl⟩
  · intro m p t ht
    obtain ⟨h1, h2, h3, h4⟩ := next_token_start m p t ht
    refine ⟨h1, h2, h3, h4, ?_⟩
    intro j hj h32 h10
    by_contra hlt
    rcases h2 j hj (by omega) with h | h
    · exact h32 h
    · exact h10 h
  · intro m p t h32 h10 ht
    exact first_nonws_unique m p _ _ (next_token_start m p t ht)
      ⟨Nat.le_refl _, fun i h1 h2 => by omega, h32, h10⟩
  · intro m p hc
    have hq : first_nonws m p p :=
      ⟨Nat.le_refl _, fun i h1 h2 => by omega, by rcases hc with h | h <;> simp [h],
        by rcases hc with h | h <;> simp [h]⟩
    have hk : next_token_like m p = token_like.TL_SYMBOL :=
      next_token_like_symbol m p (by rcases hc with h | h <;> simp [h])
    refine ⟨hk, _, next_token_symbol m p p hq hk, ?_⟩
    have := (symbol_loop_exit (m.length - (p + 1)) m (p + 1) (by omega)).1
    omega

/-- Witness of C9 at the source `a  b`, cursor 1: the token found is `[3, 4)`,
after the two spaces at offsets 1 and 2. -/
theorem whitespace_skip_witness :
    1 ≤ (token.mk 3 4).start ∧
    (∀ i, 1 ≤ i → i < (token.mk 3 4).start →
      (peek (buffer "a  b") i = 32 ∨ peek (buffer "a  b") i = 10)) ∧
    peek (buffer "a  b") (token.mk 3 4).start ≠ 32 ∧
    peek (buffer "a  b") (token.mk 3 4).start ≠ 10 ∧
    (∀ j, 1 ≤ j → peek (buffer "a  b") j ≠ 32 → peek (buffer "a  b") j ≠ 10 →
      (token.mk 3 4).start ≤ j) :=
  whitespace_skip.1 (buffer "a  b") 1 ⟨3, 4⟩ rfl

/-- C10. Single-character tokens: when the first non-whitespace character is
one of `+ { } ( ) , ; .`, `next_token` returns the token of exactly that one
character, whatever follows it. -/
theorem single_character_tokens :
    (∀ (m : List Nat) (p q : Nat), first_nonws m p q →
      (peek m q = 43 ∨ peek m q = 123 ∨ peek m q = 125 ∨ peek m q = 40 ∨
        peek m q = 41 ∨ peek m q = 44 ∨ peek m q = 59 ∨ peek m q = 46) →
      next_token m p = Except.ok ⟨q, q + 1⟩) ∧
    next_token (buffer "++") 0 = Except.ok ⟨0, 1⟩ ∧
    next_token (buffer "+=") 0 = Except.ok ⟨0, 1⟩ ∧
    next_token (buffer ".5") 0 = Except.ok ⟨0, 1⟩ ∧
    main_tokens (buffer "\x7b\x7d(),;.+") = Except.ok
      ([⟨0, 1⟩, ⟨1, 2⟩, ⟨2, 3⟩, ⟨3, 4⟩, ⟨4, 5⟩, ⟨5, 6⟩, ⟨6, 7⟩, ⟨7, 8⟩], 8) := by
  refine ⟨?_, rfl, rfl, rfl, rfl⟩
  intro m p q h hc
  rw [next_token_at m p q h]
  rcases hc with hc | hc | hc | hc | hc | hc | hc | hc <;>
    simp [next_token_like, hc]

/-- Witness of C10 at the source `f (x)`, cursor 1: the `(` at offset 2 is a
token of its own though a symbol character follows it. -/
theorem single_character_tokens_witness :
    next_token (buffer "f (x)") 1 = Except.ok ⟨2, 2 + 1⟩ :=
  single_character_tokens.1 (buffer "f (x)") 1 2 (by decide) (by decide)

/-- C11. Classifier table: `next_token_like` is a function of the byte it is
pointed at that returns Eq for `=`, Plus for `+`, Quote for `"`, BraceOpen for
the opening brace, BraceClose for the closing brace, ParenOpen for `(`,
ParenClose for `)`, Comma for `,`, Semicolon for `;`, Dot for `.`, Colon for
`:`; it returns Symbol exactly when the byte is none of these eleven (so for
NUL, space, newline, tab, letters, digits and underscore), and never EqEq or
ColonColon. -/
theorem classifier_table :
    (∀ (m : List Nat) (s : Nat),
      (peek m s = 61 → next_token_like m s = token_like.TL_EQ) ∧
      (peek m s = 43 → next_token_like m s = token_like.TL_PLUS) ∧
      (peek m s = 34 → next_token_like m s = token_like.TL_QUOT) ∧
      (peek m s = 123 → next_token_like m s = token_like.TL_BRACE_OPEN) ∧
      (peek m s = 125 → next_token_like m s = token_like.TL_BRACE_END) ∧
      (peek m s = 40 → next_token_like m s = token_like.TL_PAREN_OPEN) ∧
      (peek m s = 41 → next_token_like m s = token_like.TL_PAREN_END) ∧
      (peek m s = 44 → next_token_like m s = token_like.TL_COMMA) ∧
      (peek m s = 59 → next_token_like m s = token_like.TL_SEMIC) ∧
      (peek m s = 46 → next_token_like m s = token_like.TL_DOT) ∧
      (peek m s = 58 → next_token_like m s = token_like.TL_COLON) ∧
      (next_token_like m s = token_like.TL_SYMBOL ↔
        (peek m s ≠ 61 ∧ peek m s ≠ 43 ∧ peek m s ≠ 34 ∧ peek m s ≠ 123 ∧
          peek m s ≠ 125 ∧ peek m s ≠ 40 ∧ peek m s ≠ 41 ∧ peek m s ≠ 44 ∧
          peek m s ≠ 59 ∧ peek m s ≠ 46 ∧ peek m s ≠ 58)) ∧
      next_token_like m s ≠ token_like.TL_EQ_EQ ∧
      next_token_like m s ≠ token_like.TL_CCOLON) ∧
    next_token_like (buffer "") 0 = token_like.TL_SYMBOL ∧
    next_token_like (buffer " \n\t") 0 = token_like.TL_SYMBOL ∧
    next_token_like (buffer " \n\t") 1 = token_like.TL_SYMBOL ∧
    next_token_like (buffer " \n\t") 2 = token_like.TL_SYMBOL ∧
    next_token_like (buffer "aZ0_") 0 = token_like.TL_SYMBOL ∧
    next_token_like (buffer "aZ0_") 1 = token_like.TL_SYMBOL ∧
    next_token_like (buffer "aZ0_") 2 = token_like.TL_SYMBOL ∧
    next_token_like (buffer "aZ0_") 3 = token_like.TL_SYMBOL := by
  refine ⟨?_, rfl, rfl, rfl, rfl, rfl, rfl, rfl, rfl⟩
  intro m s
  refine ⟨fun h => by simp [next_token_like, h], fun h => by simp [next_token_like, h],
    fun h => by simp [next_token_like, h], fun h => by simp [next_token_like, h],
    fun h => by simp [next_token_like, h], fun h => by simp [next_token_like, h],
    fun h => by simp [next_token_like, h], fun h => by simp [next_token_like, h],
    fun h => by simp [next_token_like, h], fun h => by simp [next_token_like, h],
    fun h => by simp [next_token_like, h], ⟨?_, next_token_like_symbol m s⟩, ?_, ?_⟩
  · intro hk
    have hc := next_token_like_cases m s
    simp only [hk] at hc
    simpa using hc
  · intro hk
    have hc := next_token_like_cases m s
    simp [hk] at hc
  · intro hk
    have hc := next_token_like_cases m s
    simp [hk] at hc

/-- Witness of C11 at the source `x=1`, offset 1: the byte there is `=` and
the category Eq. -/
theorem classifier_table_witness :
    next_token_like (buffer "x=1") 1 = token_like.TL_EQ :=
  (classifier_table.1 (buffer "x=1") 1).1 (by decide)

/-- C12. Two failure modes: every error `next_token` ends in has the Syntax
severity and is either "unterminated quote", with `"` as the first
non-whitespace character, or "expected ::, found :", with `:` as the first
non-whitespace character and no `:` after it; when the first non-whitespace
character is neither `"` nor `:`, `next_token` returns a token.  Both errors
occur. -/
theorem two_failure_modes :
    (∀ (m : List Nat) (p : Nat) (e : error_type × String),
      next_token m p = Except.error e →
      e.1 = error_type.ERROR_SYNTAX ∧
      ∃ q, first_nonws m p q ∧
        ((peek m q = 34 ∧ e.2 = "unterminated quote") ∨
          (peek m q = 58 ∧ peek m (q + 1) ≠ 58 ∧ e.2 = "expected ::, found :"))) ∧
    (∀ (m : List Nat) (p q : Nat), first_nonws m p q →
      peek m q ≠ 34 → peek m q ≠ 58 → ∃ t, next_token m p = Except.ok t) ∧
    next_token (buffer "\"abc") 0 =
      Except.error (error_type.ERROR_SYNTAX, "unterminated quote") ∧
    next_token (buffer ":") 0 =
      Except.error (error_type.ERROR_SYNTAX, "expected ::, found :") := by
  refine ⟨?_, ?_, rfl, rfl⟩
  · intro m p e h
    have hq := first_nonws_exists m p
    rw [next_token_at m p _ hq] at h
    split_ifs at h with h1 h2 h3 h4 h5 h6
    · split at h
      · rename_i e' he
        have hee := quote_loop_error _ m _ e' he
        injection h with h
        rw [← h, hee]
        exact ⟨rfl, _, hq, Or.inl ⟨next_token_like_quot_inv m _ h1, rfl⟩⟩
      · exact absurd h (by simp)
    · injection h with h
      rw [← h]
      exact ⟨rfl, _, hq, Or.inr ⟨next_token_like_colon_inv m _ h4, h5, rfl⟩⟩
  · intro m p q h h34 h58
    have hnq : next_token_like m q ≠ token_like.TL_QUOT :=
      fun hk => h34 (next_token_like_quot_inv m q hk)
    have hnc : next_token_like m q ≠ token_like.TL_COLON :=
      fun hk => h58 (next_token_like_colon_inv m q hk)
    rw [next_token_at m p q h, if_neg hnq]
    split_ifs
    all_goals exact ⟨_, rfl⟩

/-- Witness of C12 at the source `f(x)`, cursor 1: the first non-whitespace
character is `(`, neither `"` nor `:`, and a token is returned. -/
theorem two_failure_modes_witness :
    ∃ t, next_token (buffer "f(x)") 1 = Except.ok t :=
  two_failure_modes.2.1 (buffer "f(x)") 1 1 (by decide) (by decide) (by decide)

/-- C13. Strict progress: a token `next_token` returns is not empty and ends
past the cursor, `end >= start + 1 > p`, in every branch, and also when the
byte at `start` is the NUL terminator.  Hence `k` calls, each from the end of
the token before, move the cursor by at least `k`: from a cursor `p` inside a
text of length `len`, `len + 1 - p` calls that all return leave the cursor past
the terminator, and the loop of `main` leaves within `m.length` rounds. -/
theorem strict_progress :
    (∀ (m : List Nat) (p : Nat) (t : token), next_token m p = Except.ok t →
      t.start + 1 ≤ t.end_ ∧ p < t.start + 1) ∧
    (∀ (m : List Nat) (p q : Nat), first_nonws m p q → peek m q = 0 →
      ∃ e, next_token m p = Except.ok ⟨q, e⟩ ∧ q + 1 ≤ e) ∧
    (∀ (k : Nat) (m : List Nat) (p c : Nat),
      next_token_iter k m p = Except.ok c → p + k ≤ c) ∧
    (∀ (m : List Nat) (len p c : Nat), cstring m len → p ≤ len →
      next_token_iter (len + 1 - p) m p = Except.ok c → len < c) ∧
    (∀ (n : Nat) (m : List Nat) (tok : token), m.length ≤ n →
      main_loop (n + 1) m 0 tok [] = main_loop n m 0 tok []) ∧
    next_token_iter 3 (buffer "a b") 0 = Except.ok 4 := by
  refine ⟨?_, ?_, next_token_iter_advances, ?_, ?_, rfl⟩
  · intro m p t h
    have := next_token_advances m p t h
    omega
  · intro m p q h hz
    obtain ⟨e, h1, h2⟩ := next_token_at_nul m p q h hz
    exact ⟨e, h1, by omega⟩
  · intro m len p c _ hp h
    have := next_token_iter_advances _ m p c h
    omega
  · intro n m tok hn
    exact main_loop_counter n m 0 tok [] (by omega)

/-- Witness of C13 at the source `a b`, cursor 1: the token returned is
`[2, 3)`. -/
theorem strict_progress_witness :
    (token.mk 2 3).start + 1 ≤ (token.mk 2 3).end_ ∧ 1 < (token.mk 2 3).start + 1 :=
  strict_progress.1 (buffer "a b") 1 ⟨2, 3⟩ rfl

/-- C14. Driver loop tiling, at the source `a "` (length 3, last character the
quote) lying in memory before the bytes `x` and `"`: the loop of `main` ends
without a syntax error, having printed `[0, 1)` and `[2, 6)`, with the cursor at
6 and not at 3; the second span runs over the terminator.  With zero bytes
after the terminator the same source ends in "unterminated quote". -/
theorem trailing_quote_breaks_tiling :
    cstring [97, 32, 34, 0, 120, 34, 0] 3 ∧
    peek [97, 32, 34, 0, 120, 34, 0] (3 - 1) ≠ 32 ∧
    peek [97, 32, 34, 0, 120, 34, 0] (3 - 1) ≠ 10 ∧
    main_tokens [97, 32, 34, 0, 120, 34, 0] = Except.ok ([⟨0, 1⟩, ⟨2, 6⟩], 6) ∧
    peek [97, 32, 34, 0, 120, 34, 0] 3 = 0 ∧
    main_tokens (buffer "a \"") =
      Except.error (error_type.ERROR_SYNTAX, "unterminated quote") := by
  refine ⟨by decide, by decide, by decide, rfl, rfl, rfl⟩

/-- The tiling of C14 at the source `x = "a b" :: y;`, which has a zero byte
after its terminator: the loop of `main` prints six spans and leaves with the
cursor on the terminator at offset 15. -/
theorem main_tokens_tiling_example :
    main_tokens (buffer "x = \"a b\" :: y;") =
      Except.ok ([⟨0, 1⟩, ⟨2, 3⟩, ⟨4, 9⟩, ⟨10, 12⟩, ⟨13, 14⟩, ⟨14, 15⟩], 15) ∧
    (15 = 15 ∧ tiles (buffer "x = \"a b\" :: y;") 15 0
      [⟨0, 1⟩, ⟨2, 3⟩, ⟨4, 9⟩, ⟨10, 12⟩, ⟨13, 14⟩, ⟨14, 15⟩]) :=
  ⟨rfl, main_tokens_tiling (buffer "x = \"a b\" :: y;") 15 _ 15 (by decide) (by decide)
    (by decide) (by decide) rfl⟩

end Llang
